import Mathlib

/-!
# Verification of the agent-poi audit batching and adaptive challenge subsystem

A shallow Lean embedding of the core of `src/agent/poi/merkle_audit.py`,
`src/agent/poi/question_pools.py` and `src/agent/multi_main.py`, together with
theorems settling the specification claims about it.

Modelling conventions:
* A 32-byte SHA-256 digest is modelled as a byte list (`Hash := List Nat`).
  The Python source passes digests around as lowercase hex strings and
  converts them to bytes before hashing; the byte list is the common value.
* SHA-256 itself is not re-derived: every Merkle operation is parametrised by
  an abstract pair-combining function `H : Hash → Hash → Hash` standing for
  `fun l r => sha256 (l ++ r)`.  All Merkle theorems are proved for every `H`,
  hence in particular for the real compressor.
* Python `float` scores and monotonic timestamps are modelled as `ℚ`.
* Python dicts that are iterated in insertion order are modelled as
  association lists in the same order.
-/

/-- A digest, as the byte sequence underlying the hex strings of the source. -/
abbrev Hash : Type := List Nat

/-- `"0" * 64`, the all-zero sentinel root of `compute_merkle_root` for an
empty input (32 zero bytes once decoded from hex). -/
def zeroRoot : Hash := List.replicate 32 0

/-- One iteration of the `while len(current_level) > 1` loop body of
`compute_merkle_root`: pair adjacent digests left-to-right
(`left = current_level[i]`, `right = current_level[i+1] if i+1 < len else left`)
and combine each pair with `H`. -/
def levelUp (H : Hash → Hash → Hash) : List Hash → List Hash
  | [] => []
  | [x] => [H x x]
  | x :: y :: rest => H x y :: levelUp H rest

/-- Each level halves the node count, rounding up. -/
def levelUp_length (H : Hash → Hash → Hash) :
    ∀ l : List Hash, (levelUp H l).length = (l.length + 1) / 2
  | [] => rfl
  | [_] => by simp [levelUp]
  | _ :: _ :: rest => by
      simp only [levelUp, List.length_cons, levelUp_length H rest]
      omega

/-- The `while len(current_level) > 1` loop of `compute_merkle_root`:
fold levels until a single digest remains and return `current_level[0]`.
(The `[]` arm is unreachable from `compute_merkle_root` and only serves
totality.) -/
def rootLoop (H : Hash → Hash → Hash) : List Hash → Hash
  | [] => zeroRoot
  | [x] => x
  | x :: y :: rest => rootLoop H (levelUp H (x :: y :: rest))
  termination_by l => l.length
  decreasing_by simp [levelUp_length]; omega

/-- `compute_merkle_root` (merkle_audit.py:73-105): empty input yields the
all-zero sentinel, a single hash is returned unchanged, otherwise levels are
folded bottom-up until one digest remains. -/
def compute_merkle_root (H : Hash → Hash → Hash) (hashes : List Hash) : Hash :=
  match hashes with
  | [] => zeroRoot
  | [h] => h
  | x :: y :: rest => rootLoop H (x :: y :: rest)

/-- The `"position"` field of a proof step. -/
inductive ProofPos where
  | left
  | right
  deriving DecidableEq

/-- One element of the list returned by `compute_merkle_proof`:
`{"position": "left"|"right", "hash": ...}`. -/
structure ProofStep where
  pos : ProofPos
  hash : Hash
  deriving DecidableEq

/-- The inner `for i in range(0, len(current_level), 2)` loop of
`compute_merkle_proof`, restricted to its only observable effect: the single
proof step recorded for the pair containing `current_index`.  For the pair at
`i` the source records the right sibling when `current_index` is even and the
left sibling when it is odd; an unpaired last element acts as both `left` and
`right` (duplicated self). -/
def siblingSteps : List Hash → Nat → List ProofStep
  | [], _ => []
  | [x], idx =>
      if idx = 0 then [⟨ProofPos.right, x⟩]
      else if idx = 1 then [⟨ProofPos.left, x⟩]
      else []
  | x :: y :: rest, idx =>
      if idx = 0 then [⟨ProofPos.right, y⟩]
      else if idx = 1 then [⟨ProofPos.left, x⟩]
      else siblingSteps rest (idx - 2)

/-- The `while len(current_level) > 1` loop of `compute_merkle_proof`:
record the sibling step at this level, fold the level, and descend with
`current_index // 2`. -/
def proofLoop (H : Hash → Hash → Hash) : List Hash → Nat → List ProofStep
  | [], _ => []
  | [_], _ => []
  | x :: y :: rest, idx =>
      siblingSteps (x :: y :: rest) idx ++ proofLoop H (levelUp H (x :: y :: rest)) (idx / 2)
  termination_by l _ => l.length
  decreasing_by simp [levelUp_length]; omega

/-- `compute_merkle_proof` (merkle_audit.py:108-149): guard
`if not hashes or index >= len(hashes): return []`, then the level walk. -/
def compute_merkle_proof (H : Hash → Hash → Hash) (hashes : List Hash) (index : Nat) :
    List ProofStep :=
  if hashes = [] ∨ hashes.length ≤ index then [] else proofLoop H hashes index

/-- One iteration of the `for step in proof` loop of `verify_merkle_proof`:
a left sibling hashes before the current digest, a right sibling after. -/
def applyStep (H : Hash → Hash → Hash) (current : Hash) (step : ProofStep) : Hash :=
  match step.pos with
  | ProofPos.left => H step.hash current
  | ProofPos.right => H current step.hash

/-- `verify_merkle_proof` (merkle_audit.py:152-163): re-derive the root from
the entry hash along the proof and compare with the committed root. -/
def verify_merkle_proof (H : Hash → Hash → Hash) (entry_hash : Hash)
    (proof : List ProofStep) (root : Hash) : Bool :=
  decide (proof.foldl (applyStep H) entry_hash = root)

/-- Modelled from the spec's words (reference definition for the
`compute_merkle_root` refinement claim): "pair adjacent elements
left-to-right; if the level has odd length, the last element is paired with
itself".  The pairs of one level, as explicit pairs. -/
def specPairs : List Hash → List (Hash × Hash)
  | [] => []
  | [x] => [(x, x)]
  | x :: y :: rest => (x, y) :: specPairs rest

/-- Modelled from the spec's words: "each pair is concatenated (left||right)
and hashed with SHA-256 to produce the parent level". -/
def specLevel (H : Hash → Hash → Hash) (l : List Hash) : List Hash :=
  (specPairs l).map (fun p => H p.1 p.2)

/-- The parent level is never longer than a two-or-more-element child level. -/
def specLevel_length (H : Hash → Hash → Hash) :
    ∀ l : List Hash, (specLevel H l).length = (l.length + 1) / 2
  | [] => rfl
  | [_] => by simp [specLevel, specPairs]
  | _ :: _ :: rest => by
      simp only [specLevel, specPairs, List.map_cons, List.length_cons]
      have := specLevel_length H rest
      simp only [specLevel] at this
      omega

/-- Modelled from the spec's words (reference definition): "Empty input yields
a defined all-zero sentinel root. Single input returns that input unchanged.
Otherwise ... repeat until one digest remains." -/
def merkleRootSpec (H : Hash → Hash → Hash) : List Hash → Hash
  | [] => zeroRoot
  | [h] => h
  | x :: y :: rest => merkleRootSpec H (specLevel H (x :: y :: rest))
  termination_by l => l.length
  decreasing_by simp [specLevel_length]; omega

/-!
## Audit entries and the `AuditBatcher` (merkle_audit.py:166-468)

`details` payloads are opaque JSON-serialisable dicts; they are modelled by
their canonical (sorted-key) serialisation, a `String`.  The entry hash
`sha256(json.dumps({action_type, timestamp, details}, sort_keys=True))` is
modelled by an abstract function `entrySha` of the three fields.  Action types
are modelled by their enum string values. -/

/-- The canonical serialisation of a `details` dict. -/
def Details : Type := String

instance : DecidableEq Details := by unfold Details; infer_instance

/-- `AuditEntry` (merkle_audit.py:43-70). -/
structure AuditEntry where
  action_type : String
  timestamp : Nat
  details : Details
  entry_hash : Hash
  deriving DecidableEq

/-- `AuditEntry.__post_init__`: the hash is computed once from the three
fields at construction time. -/
def mkAuditEntry (entrySha : String → Nat → Details → Hash)
    (action_type : String) (timestamp : Nat) (details : Details) : AuditEntry :=
  ⟨action_type, timestamp, details, entrySha action_type timestamp details⟩

/-- The `batch_data` dict built by `AuditBatcher.flush`
(merkle_audit.py:276-284), with `store_error` for the key that is added only
on exhausted commit retries (`none` models the key being absent). -/
structure BatchData where
  batch_index : Nat
  merkle_root : Hash
  entries_count : Nat
  timestamp : Nat
  entries : List AuditEntry
  tx_signature : Option String
  on_chain : Bool
  store_error : Option String
  deriving DecidableEq

/-- The mutable state of an `AuditBatcher` (merkle_audit.py:181-201).
`solana_client` / `agent_pda` presence is a per-flush environment here (see
`flush`); `auto_flush` and `storage_path` have no bearing on the claims. -/
structure AuditBatcher where
  batch_size : Nat
  pending_entries : List AuditEntry
  flushed_batches : List BatchData
  total_entries_logged : Nat
  total_batches_stored : Nat
  deriving DecidableEq

/-- `AuditBatcher.__init__` with the given `batch_size` (default 10). -/
def AuditBatcher.init (batch_size : Nat) : AuditBatcher :=
  ⟨batch_size, [], [], 0, 0⟩

/-- `AuditBatcher.log` (merkle_audit.py:203-234): construct the entry, append
it to the pending sequence, bump `total_entries_logged`, return the entry. -/
def AuditBatcher.log (entrySha : String → Nat → Details → Hash) (b : AuditBatcher)
    (action_type : String) (details : Details) (timestamp : Nat) :
    AuditEntry × AuditBatcher :=
  let entry := mkAuditEntry entrySha action_type timestamp details
  (entry,
   { b with
       pending_entries := b.pending_entries ++ [entry]
       total_entries_logged := b.total_entries_logged + 1 })

/-- `AuditBatcher.get_batch_hashes`. -/
def AuditBatcher.get_batch_hashes (b : AuditBatcher) : List Hash :=
  b.pending_entries.map (fun e => e.entry_hash)

/-- `AuditBatcher.compute_current_root`. -/
def AuditBatcher.compute_current_root (H : Hash → Hash → Hash) (b : AuditBatcher) : Hash :=
  compute_merkle_root H b.get_batch_hashes

/-- `AuditBatcher.should_flush`: `len(self.pending_entries) >= self.batch_size`. -/
def AuditBatcher.should_flush (b : AuditBatcher) : Bool :=
  decide (b.batch_size ≤ b.pending_entries.length)

/-- `startsWith needle l`: `needle` is an initial segment of `l`. -/
def startsWith : List Char → List Char → Bool
  | [], _ => true
  | _ :: _, [] => false
  | a :: as, b :: bs => a == b && startsWith as bs

/-- Python's `needle in hay` on strings, over the character lists. -/
def containsSeq (needle : List Char) (hay : List Char) : Bool :=
  startsWith needle hay ||
    match hay with
    | [] => false
    | _ :: t => containsSeq needle t

/-- The stale-index signature test of `flush` / `retry_failed_batches`:
`"2006" in error_str or "seeds constraint" in error_str.lower()`. -/
def isSeedsConstraintError (e : String) : Bool :=
  containsSeq "2006".toList e.toList ||
    containsSeq "seeds constraint".toList (e.toList.map Char.toLower)

/-- Outcome of the `for attempt in range(3)` commit loop of `flush`
(merkle_audit.py:296-321). -/
inductive CommitResult where
  | committed (sig : String)
  | raised (err : String)
  | swallowed
  deriving DecidableEq

/-- The three-attempt commit loop of `flush`.  `outcomes k` is the result of
the `k`-th call of `_store_root_on_chain` (a transaction signature or the
`str(e)` of the raised exception).  Faithful control flow: a failure on
attempt 0 or 1 always continues to the next attempt (the seeds-constraint
branch additionally invalidates the client's index cache and sleeps — both
external effects); on the final attempt a seeds-constraint failure falls out
of the loop without re-raising (`swallowed`), any other failure is re-raised
to the outer handler (`raised`). -/
def commitAttempts (outcomes : Nat → Except String String) : CommitResult :=
  match outcomes 0 with
  | Except.ok sig => CommitResult.committed sig
  | Except.error _ =>
    match outcomes 1 with
    | Except.ok sig => CommitResult.committed sig
    | Except.error _ =>
      match outcomes 2 with
      | Except.ok sig => CommitResult.committed sig
      | Except.error e2 =>
          if isSeedsConstraintError e2 then CommitResult.swallowed
          else CommitResult.raised e2

/-- `AuditBatcher.flush` (merkle_audit.py:248-343).  `now` is the wall-clock
timestamp; `commitEnv = none` models a batcher with no `solana_client` or
`agent_pda` (local storage only), `commitEnv = some outcomes` supplies the
on-chain store outcomes.  The outer `except` records
`batch_data["store_error"] = error_msg[:500]` (the `TypeName: message`
rendering is abstracted to the message itself).  Returns the optional batch
together with the updated batcher state (`none` leaves the state unchanged). -/
def AuditBatcher.flush (H : Hash → Hash → Hash) (b : AuditBatcher) (force : Bool)
    (now : Nat) (commitEnv : Option (Nat → Except String String)) :
    Option BatchData × AuditBatcher :=
  if b.pending_entries = [] then (none, b)
  else if force = false ∧ b.pending_entries.length < b.batch_size then (none, b)
  else
    let hashes := b.get_batch_hashes
    let merkle_root := compute_merkle_root H hashes
    let entries_count := b.pending_entries.length
    let base : BatchData :=
      ⟨b.total_batches_stored, merkle_root, entries_count, now,
       b.pending_entries, none, false, none⟩
    let batch :=
      match commitEnv with
      | none => base
      | some outcomes =>
        match commitAttempts outcomes with
        | CommitResult.committed sig =>
            { base with tx_signature := some sig, on_chain := true }
        | CommitResult.raised e =>
            { base with store_error := some (e.take 500) }
        | CommitResult.swallowed => base
    (some batch,
     { b with
         flushed_batches := b.flushed_batches ++ [batch]
         total_batches_stored := b.total_batches_stored + 1
         pending_entries := [] })

/-- One batcher operation, for traces of `log` and `flush` calls. -/
inductive BatcherOp where
  | log (action_type : String) (details : Details) (timestamp : Nat)
  | flush (force : Bool) (now : Nat) (commitEnv : Option (Nat → Except String String))

/-- Run a sequence of batcher operations from a state. -/
def runOps (entrySha : String → Nat → Details → Hash) (H : Hash → Hash → Hash)
    (b : AuditBatcher) : List BatcherOp → AuditBatcher
  | [] => b
  | BatcherOp.log a d t :: rest => runOps entrySha H (b.log entrySha a d t).2 rest
  | BatcherOp.flush force now env :: rest => runOps entrySha H (b.flush H force now env).2 rest

/-- Log a list of `(action_type, details, timestamp)` triples in order. -/
def logMany (entrySha : String → Nat → Details → Hash) (b : AuditBatcher)
    (items : List (String × Details × Nat)) : AuditBatcher :=
  items.foldl (fun acc it => (acc.log entrySha it.1 it.2.1 it.2.2).2) b

/-!
## State persistence (multi_main.py:222-294)

`save_state` serialises each flushed batch dict minus its `"entries"` key;
`load_state` restores `flushed_batches`, sets `total_batches_stored` to the
number of saved batches, and recomputes `total_entries_logged` as
`sum(b.get("entry_count", 0) for b in saved_batches)` — a dict lookup, so it
is modelled through the keyed view of a batch dict below. -/

/-- The integer-valued keys present in a batch dict as built by `flush`
(`batch_index`, `entries_count`, `timestamp`); any other key misses.
This is Python's `b.get(key)` restricted to the numeric fields. -/
def batchGetNat (b : BatchData) (key : String) : Option Nat :=
  if key = "batch_index" then some b.batch_index
  else if key = "entries_count" then some b.entries_count
  else if key = "timestamp" then some b.timestamp
  else none

/-- `save_state`'s `"audit_batches"` list: every flushed batch with the
`"entries"` key dropped (multi_main.py:243-246). -/
def savedAuditBatches (b : AuditBatcher) : List BatchData :=
  b.flushed_batches.map (fun bd => { bd with entries := [] })

/-- The audit-batcher part of `load_state` (multi_main.py:277-283): when the
saved list is non-empty, restore the flushed list, set
`total_batches_stored = len(saved_batches)` and
`total_entries_logged = sum(b.get("entry_count", 0) for b in saved_batches)`. -/
def load_state_batcher (saved : List BatchData) (b : AuditBatcher) : AuditBatcher :=
  if saved = [] then b
  else
    { b with
        flushed_batches := saved
        total_batches_stored := saved.length
        total_entries_logged :=
          (saved.map (fun bd => (batchGetNat bd "entry_count").getD 0)).sum }

/-!
## `_get_weakest_domain` (multi_main.py:903-915)

Score dicts (`domain -> [scores]`) are association lists in insertion order;
scores are `ℚ` (Python floats). -/

/-- `sum(scores[-5:]) / len(scores[-5:])`: the average of the last (up to)
five scores. -/
def avgLast5 (scores : List ℚ) : ℚ :=
  let t := scores.drop (scores.length - 5)
  t.sum / (t.length : ℚ)

/-- Python's `min(avg_scores, key=avg_scores.get)`: the first key attaining
the minimum value, in insertion order. -/
def minByValue : List (String × ℚ) → Option String
  | [] => none
  | x :: xs =>
      (xs.foldl (fun best p => if p.2 < best.2 then p else best) x).1

/-- The `avg_scores` dict of `_get_weakest_domain`: domains with a non-empty
score list, mapped to the average of their last five scores. -/
def avgScores (source : List (String × List ℚ)) : List (String × ℚ) :=
  source.filterMap (fun p => if p.2 = [] then none else some (p.1, avgLast5 p.2))

/-- `_get_weakest_domain` (multi_main.py:903-915): prefer the self-score dict
whenever it is truthy (non-empty), fall back to the peer-score dict otherwise;
return `None` when the chosen source is empty or holds no non-empty score
list, else the first domain with the least average. -/
def get_weakest_domain (selfScores peerScores : List (String × List ℚ)) : Option String :=
  let source := if selfScores = [] then peerScores else selfScores
  if source = [] then none
  else
    let avg_scores := avgScores source
    if avg_scores = [] then none
    else minByValue avg_scores

/-- Modelled from the spec's words (reference reading of the claim):
"averages the last 5 self-scores per domain (falling back to peer-observed
scores if no self-scores exist at all) and returns the domain with the lowest
average; null if no score data exists anywhere".  Falling back is conditioned
on no self score existing in any domain, not on the dict being empty. -/
def specWeakestDomain (selfScores peerScores : List (String × List ℚ)) : Option String :=
  let source :=
    if selfScores.all (fun p => p.2 = []) then peerScores else selfScores
  minByValue (avgScores source)

/-!
## `QuestionSelector.select_question` (question_pools.py:199-251)

A question's long text, reference answer and sha-derived id contribute nothing
to the claims beyond identity, so the pool is kept as an arbitrary list of
`ChallengeQuestion` records and the id function `qid` (the truncated sha256 of
the question text) is an abstract parameter. -/

/-- `ChallengeQuestion` (question_pools.py:16-27), minus the reference answer
(unused by selection). -/
structure ChallengeQuestion where
  question : String
  domain : String
  difficulty : String
  deriving DecidableEq

/-- `PERSONALITY_WEIGHTS` (question_pools.py:191-196). -/
def PERSONALITY_WEIGHTS : List (String × List (String × ℚ)) :=
  [("defi", [("defi", 0.50), ("solana", 0.15), ("security", 0.20), ("general", 0.15)]),
   ("security", [("defi", 0.15), ("solana", 0.20), ("security", 0.50), ("general", 0.15)]),
   ("solana", [("defi", 0.15), ("solana", 0.50), ("security", 0.20), ("general", 0.15)]),
   ("general", [("defi", 0.25), ("solana", 0.25), ("security", 0.25), ("general", 0.25)])]

/-- `PERSONALITY_WEIGHTS.get(personality, PERSONALITY_WEIGHTS["general"])`
(question_pools.py:212). -/
def personalityWeightsFor (personality : String) : List (String × ℚ) :=
  match List.lookup personality PERSONALITY_WEIGHTS with
  | some w => w
  | none => (List.lookup "general" PERSONALITY_WEIGHTS).getD []

/-- The candidate pool of `select_question` (question_pools.py:221-230):
questions not yet asked of this peer, resetting to the full pool when all
have been asked. -/
def selectCandidates (qid : String → String) (pool : List ChallengeQuestion)
    (asked : List String) : List ChallengeQuestion :=
  let candidates := pool.filter (fun q => ¬ (qid q.question) ∈ asked)
  if candidates = [] then pool else candidates

/-- The weighted candidate list of `select_question` (question_pools.py:232-236):
each candidate paired with `self._weights.get(q.domain, 0.1)`. -/
def selectWeights (qid : String → String) (personality : String)
    (pool : List ChallengeQuestion) (asked : List String) :
    List (ChallengeQuestion × ℚ) :=
  (selectCandidates qid pool asked).map
    (fun q => (q, (List.lookup q.domain (personalityWeightsFor personality)).getD 0.1))

/-- `random.choices(questions, weights=weights, k=1)[0]` with the random draw
explicit: `x` is the uniform sample scaled by the total weight, and the pick
is the first candidate whose cumulative weight exceeds it. -/
def pickWeighted : List (ChallengeQuestion × ℚ) → ℚ → Option ChallengeQuestion
  | [], _ => none
  | (q, w) :: rest, x => if x < w then some q else pickWeighted rest (x - w)

/-- `QuestionSelector.select_question` (question_pools.py:216-251), with the
per-peer asked-id set supplied as `asked` and the scaled random draw as `x`.
Its only inputs are the selector personality, the pool, the peer history and
the draw: the method takes no preferred-domain argument. -/
def select_question (qid : String → String) (personality : String)
    (pool : List ChallengeQuestion) (asked : List String) (x : ℚ) :
    Option ChallengeQuestion :=
  pickWeighted (selectWeights qid personality pool asked) x

/-!
## Adaptive trigger engine: `_should_challenge_urgently` (multi_main.py:918-1005)

Reason strings are abstracted to their trigger category (their prefix before
the first pipe); an evaluation returns `some category` where the source
returns `(True, reason)` and `none` where it returns `(False, "")`. -/

/-- `URGENT_COOLDOWN_SECONDS` (multi_main.py:918). -/
def URGENT_COOLDOWN_SECONDS : ℚ := 600

/-- `MAX_URGENT_PER_HOUR` (multi_main.py:919). -/
def MAX_URGENT_PER_HOUR : Nat := 8

/-- The inputs one evaluation reads from the agent state and clock.
`currentRep` is `state.agent_info.get("reputation_score", 5000)` (5000 when
`agent_info` is absent); `peers` lists `(name, status)` of
`state.peer_registry.values()` in order; `crossAgentTargets` lists the
`target_agent` fields of `state.cross_agent_challenges` in order. -/
structure TriggerInputs where
  now : ℚ
  currentRep : ℤ
  lastReputation : ℤ
  peers : List (String × String)
  crossAgentTargets : List String
  selfDomainScores : List (String × List ℚ)

/-- The rate-limiting state: `state._urgent_cooldowns` (category → last fired
timestamp), `state._hourly_challenge_count` and
`state._hourly_challenge_reset_ts`. -/
structure TriggerState where
  urgentCooldowns : List (String × ℚ)
  hourlyCount : Nat
  hourlyResetTs : ℚ
  deriving DecidableEq

/-- The fresh `AgentState` rate-limiting fields (multi_main.py:196-198). -/
def TriggerState.init : TriggerState := ⟨[], 0, 0⟩

/-- `state._urgent_cooldowns.get(category, 0.0)`. -/
def cooldownGet (s : TriggerState) (cat : String) : ℚ :=
  (List.lookup cat s.urgentCooldowns).getD 0

/-- Python dict assignment `d[k] = v` on an insertion-ordered association
list: overwrite in place, else append. -/
def assocSet : List (String × ℚ) → String → ℚ → List (String × ℚ)
  | [], k, v => [(k, v)]
  | (k', v') :: rest, k, v =>
      if k' = k then (k, v) :: rest else (k', v') :: assocSet rest k v

/-- `_check_cooldown(category)`: `(now - last_fired) >= URGENT_COOLDOWN_SECONDS`. -/
def offCooldown (s : TriggerState) (now : ℚ) (cat : String) : Prop :=
  URGENT_COOLDOWN_SECONDS ≤ now - cooldownGet s cat

instance (s : TriggerState) (now : ℚ) (cat : String) :
    Decidable (offCooldown s now cat) := by
  unfold offCooldown; infer_instance

/-- `_fire_trigger(category, reason)`: stamp the category's cooldown and
consume one unit of hourly budget. -/
def fireCategory (s : TriggerState) (now : ℚ) (cat : String) : TriggerState :=
  { s with
      urgentCooldowns := assocSet s.urgentCooldowns cat now
      hourlyCount := s.hourlyCount + 1 }

/-- The recently challenged peers: `set(c.get("target_agent", "") for c in
state.cross_agent_challenges[-20:])` (membership view of the set). -/
def challengedRecent (inp : TriggerInputs) : List String :=
  inp.crossAgentTargets.drop (inp.crossAgentTargets.length - 20)

/-- Trigger 2's scan (multi_main.py:964-973): some online peer not in the
recent challenge history. -/
def hasNewPeer (inp : TriggerInputs) : Bool :=
  inp.peers.any (fun p => p.2 == "online" && ¬ p.1 ∈ challengedRecent inp)

/-- `scores[-1]`. -/
def lastScore (scores : List ℚ) : ℚ := scores.getLastD 0

/-- `scores[-2]`. -/
def secondLastScore (scores : List ℚ) : ℚ := scores.dropLast.getLastD 0

/-- Trigger 3 (multi_main.py:975-987): the first domain (in dict order) with
at least two self-scores whose most recent score is below 55 and whose
`low_self_score:<domain>` category is off cooldown.  (`scores and
len(scores) >= 2` collapses to the length test.) -/
def pickLowSelfScore (s : TriggerState) (now : ℚ) :
    List (String × List ℚ) → Option String
  | [] => none
  | (d, scores) :: rest =>
      if 2 ≤ scores.length ∧ lastScore scores < 55 ∧
          offCooldown s now ("low_self_score:" ++ d) then
        some ("low_self_score:" ++ d)
      else pickLowSelfScore s now rest

/-- Trigger 4 (multi_main.py:989-1003): the first domain with at least three
self-scores, `score_variance:<domain>` off cooldown, and an absolute swing of
at least 10 points between the two most recent scores. -/
def pickScoreVariance (s : TriggerState) (now : ℚ) :
    List (String × List ℚ) → Option String
  | [] => none
  | (d, scores) :: rest =>
      if 3 ≤ scores.length ∧ offCooldown s now ("score_variance:" ++ d) then
        if 10 ≤ |lastScore scores - secondLastScore scores| then
          some ("score_variance:" ++ d)
        else pickScoreVariance s now rest
      else pickScoreVariance s now rest

/-- The trigger cascade of `_should_challenge_urgently` (first match wins),
evaluated against a state that already passed the budget gate. -/
def pickTrigger (s : TriggerState) (inp : TriggerInputs) : Option String :=
  if 200 ≤ inp.lastReputation - inp.currentRep ∧
      offCooldown s inp.now "reputation_drop" then
    some "reputation_drop"
  else if offCooldown s inp.now "new_peer" ∧ hasNewPeer inp = true then
    some "new_peer"
  else
    match pickLowSelfScore s inp.now inp.selfDomainScores with
    | some cat => some cat
    | none => pickScoreVariance s inp.now inp.selfDomainScores

/-- The hourly-budget reset at the top of `_should_challenge_urgently`
(multi_main.py:932-935): `if now - reset_ts >= 3600: count = 0; reset_ts = now`. -/
def resetBudget (s : TriggerState) (now : ℚ) : TriggerState :=
  if 3600 ≤ now - s.hourlyResetTs then
    { s with hourlyCount := 0, hourlyResetTs := now }
  else s

/-- `_should_challenge_urgently` (multi_main.py:922-1005): roll the hourly
budget window forward when stale, refuse outright when the budget is spent,
otherwise fire the first qualifying trigger category (stamping its cooldown
and consuming budget). -/
def shouldChallengeUrgently (s0 : TriggerState) (inp : TriggerInputs) :
    Option String × TriggerState :=
  let s := resetBudget s0 inp.now
  if MAX_URGENT_PER_HOUR ≤ s.hourlyCount then (none, s)
  else
    match pickTrigger s inp with
    | some cat => (some cat, fireCategory s inp.now cat)
    | none => (none, s)

/-- Run a sequence of evaluations, collecting `(now, fired category)` events. -/
def runTriggers (s : TriggerState) : List TriggerInputs → List (ℚ × Option String) × TriggerState
  | [] => ([], s)
  | inp :: rest =>
      let r := shouldChallengeUrgently s inp
      let t := runTriggers r.2 rest
      ((inp.now, r.1) :: t.1, t.2)

/-- The times at which a given category fired in an event list. -/
def fireTimes (evs : List (ℚ × Option String)) (cat : String) : List ℚ :=
  evs.filterMap (fun e => if e.2 = some cat then some e.1 else none)

/-- The total number of fired events in an event list. -/
def countFires (evs : List (ℚ × Option String)) : Nat :=
  (evs.filter (fun e => e.2.isSome)).length

/-!
## Concrete stand-ins for witnesses

The abstract hash parameters instantiated at simple computable functions, so
that witness theorems can evaluate the definitions on concrete inputs. -/

/-- A concrete stand-in for the pair combiner in witnesses. -/
def combW : Hash → Hash → Hash := fun a b => a ++ b

/-- A concrete stand-in for the entry-hash function in witnesses. -/
def shaW : String → Nat → Details → Hash := fun _ t _ => [t]

/-!
## Theorems

Shared helper lemmas first, then one theorem per claim (with witnesses and
counterexamples where required). -/

theorem specLevel_eq_levelUp (H : Hash → Hash → Hash) :
    ∀ l : List Hash, specLevel H l = levelUp H l
  | [] => rfl
  | [x] => by simp [specLevel, specPairs, levelUp]
  | x :: y :: rest => by
      simp only [specLevel, specPairs, List.map_cons, levelUp]
      exact congrArg _ (specLevel_eq_levelUp H rest)

theorem rootLoop_eq_merkleRootSpec (H : Hash → Hash → Hash) :
    ∀ l : List Hash, rootLoop H l = merkleRootSpec H l
  | [] => by rw [rootLoop, merkleRootSpec]
  | [x] => by rw [rootLoop, merkleRootSpec]
  | x :: y :: rest => by
      rw [rootLoop, merkleRootSpec, specLevel_eq_levelUp H]
      exact rootLoop_eq_merkleRootSpec H (levelUp H (x :: y :: rest))
  termination_by l => l.length
  decreasing_by simp [levelUp_length]; omega

theorem siblingSteps_fold (H : Hash → Hash → Hash) :
    ∀ (l : List Hash) (idx : Nat), idx < l.length →
      List.foldl (applyStep H) (l.getD idx default) (siblingSteps l idx)
        = (levelUp H l).getD (idx / 2) default
  | [], idx, h => by simp at h
  | [x], idx, h => by
      have h0 : idx = 0 := by simp at h; omega
      subst h0
      simp [siblingSteps, levelUp, applyStep]
  | x :: y :: rest, 0, h => by
      simp [siblingSteps, levelUp, applyStep]
  | x :: y :: rest, 1, h => by
      simp [siblingSteps, levelUp, applyStep]
  | x :: y :: rest, (n + 2), h => by
      have hn : n < rest.length := by simpa using h
      have ih := siblingSteps_fold H rest n hn
      simp only [siblingSteps, levelUp]
      have h2 : (n + 2) / 2 = n / 2 + 1 := by omega
      simpa [h2] using ih

theorem proofLoop_fold (H : Hash → Hash → Hash) :
    ∀ (l : List Hash) (idx : Nat), idx < l.length →
      List.foldl (applyStep H) (l.getD idx default) (proofLoop H l idx) = rootLoop H l
  | [], idx, h => by simp at h
  | [x], idx, h => by
      have h0 : idx = 0 := by simp at h; omega
      subst h0
      rw [proofLoop, rootLoop]
      simp
  | x :: y :: rest, idx, h => by
      rw [proofLoop, rootLoop]
      rw [List.foldl_append, siblingSteps_fold H (x :: y :: rest) idx h]
      have hlt : idx / 2 < (levelUp H (x :: y :: rest)).length := by
        rw [levelUp_length]
        simp only [List.length_cons] at h ⊢
        omega
      exact proofLoop_fold H (levelUp H (x :: y :: rest)) (idx / 2) hlt
  termination_by l _ _ => l.length
  decreasing_by simp [levelUp_length]; omega

/-- **C1** — Merkle round-trip: for every combining function, every non-empty
digest list and every valid index `i`,
`verify_merkle_proof(hashes[i], compute_merkle_proof(hashes, i),
compute_merkle_root(hashes))` returns true. -/
theorem merkle_roundtrip (H : Hash → Hash → Hash) (hashes : List Hash) (i : Nat)
    (hne : hashes ≠ []) (hi : i < hashes.length) :
    verify_merkle_proof H (hashes.getD i default)
      (compute_merkle_proof H hashes i) (compute_merkle_root H hashes) = true := by
  rw [compute_merkle_proof, if_neg (by push_neg; exact ⟨hne, by omega⟩)]
  rw [verify_merkle_proof, decide_eq_true_iff]
  match hashes, hne with
  | [x], _ =>
      have h0 : i = 0 := by simp at hi; omega
      subst h0
      rw [proofLoop]
      simp [compute_merkle_root]
  | x :: y :: rest, _ =>
      rw [show compute_merkle_root H (x :: y :: rest) = rootLoop H (x :: y :: rest) from rfl]
      exact proofLoop_fold H (x :: y :: rest) i hi

/-- **C1 witness**: a concrete three-leaf instance with a concrete combiner. -/
theorem merkle_roundtrip_witness :
    ([[1], [2], [3]] : List Hash) ≠ [] ∧ 2 < ([[1], [2], [3]] : List Hash).length ∧
      verify_merkle_proof (fun a b => a ++ b) (([[1], [2], [3]] : List Hash).getD 2 default)
        (compute_merkle_proof (fun a b => a ++ b) [[1], [2], [3]] 2)
        (compute_merkle_root (fun a b => a ++ b) [[1], [2], [3]]) = true :=
  ⟨by decide, by decide,
   merkle_roundtrip (fun a b => a ++ b) [[1], [2], [3]] 2 (by decide) (by decide)⟩

/-- **C5** — `compute_merkle_root` equals the reference definition written
from the spec's words; in particular the odd-length duplication rule gives
`H(H(a,b), H(c,c))` on `[a, b, c]`, the empty list yields the all-zero
sentinel and a singleton is returned unchanged. -/
theorem compute_merkle_root_meets_spec :
    (∀ (H : Hash → Hash → Hash) (hashes : List Hash),
        compute_merkle_root H hashes = merkleRootSpec H hashes) ∧
    (∀ (H : Hash → Hash → Hash) (a b c : Hash),
        compute_merkle_root H [a, b, c] = H (H a b) (H c c)) ∧
    (∀ H : Hash → Hash → Hash, compute_merkle_root H [] = zeroRoot) ∧
    (∀ (H : Hash → Hash → Hash) (h : Hash), compute_merkle_root H [h] = h) := by
  refine ⟨?_, ?_, fun H => rfl, fun H h => rfl⟩
  · intro H hashes
    match hashes with
    | [] => rw [show compute_merkle_root H [] = zeroRoot from rfl, merkleRootSpec]
    | [h] => rw [show compute_merkle_root H [h] = h from rfl, merkleRootSpec]
    | x :: y :: rest =>
        rw [show compute_merkle_root H (x :: y :: rest) = rootLoop H (x :: y :: rest) from rfl,
          rootLoop_eq_merkleRootSpec]
  · intro H a b c
    rw [show compute_merkle_root H [a, b, c] = rootLoop H [a, b, c] from rfl]
    rw [rootLoop]
    simp only [levelUp]
    rw [rootLoop]
    simp only [levelUp]
    rw [rootLoop]

/-- **C10** — degenerate Merkle proofs: `compute_merkle_proof` returns the
empty proof for a one-element list at index 0, for the empty list, and for
any out-of-range index; `verify_merkle_proof` on an empty proof succeeds
exactly when the entry hash equals the root; hence a single-entry batch
verifies via the root being the entry's own hash. -/
theorem merkle_proof_degenerate :
    (∀ (H : Hash → Hash → Hash) (h : Hash), compute_merkle_proof H [h] 0 = []) ∧
    (∀ (H : Hash → Hash → Hash) (i : Nat), compute_merkle_proof H [] i = []) ∧
    (∀ (H : Hash → Hash → Hash) (l : List Hash) (i : Nat),
        l.length ≤ i → compute_merkle_proof H l i = []) ∧
    (∀ (H : Hash → Hash → Hash) (e root : Hash),
        verify_merkle_proof H e [] root = true ↔ e = root) ∧
    (∀ (H : Hash → Hash → Hash) (h : Hash),
        verify_merkle_proof H h (compute_merkle_proof H [h] 0)
          (compute_merkle_root H [h]) = true) := by
  refine ⟨?_, ?_, ?_, ?_, ?_⟩
  · intro H h
    rw [compute_merkle_proof, if_neg (by simp)]
    rw [proofLoop]
  · intro H i
    rw [compute_merkle_proof, if_pos (Or.inl rfl)]
  · intro H l i hle
    rw [compute_merkle_proof, if_pos (Or.inr hle)]
  · intro H e root
    simp [verify_merkle_proof]
  · intro H h
    rw [compute_merkle_proof, if_neg (by simp)]
    rw [proofLoop]
    simp [verify_merkle_proof, compute_merkle_root]

/-- **C10 witness**: an out-of-range index on a concrete two-leaf list. -/
theorem merkle_proof_degenerate_witness :
    ([[1], [2]] : List Hash).length ≤ 7 ∧
      compute_merkle_proof combW [[1], [2]] 7 = [] :=
  ⟨by decide, merkle_proof_degenerate.2.2.1 combW [[1], [2]] 7 (by decide)⟩

theorem flush_state_cases (H : Hash → Hash → Hash) (b : AuditBatcher) (force : Bool)
    (now : Nat) (env : Option (Nat → Except String String)) :
    (b.flush H force now env) = (none, b) ∨
    ∃ batch, (b.flush H force now env) =
      (some batch,
       { b with
           flushed_batches := b.flushed_batches ++ [batch]
           total_batches_stored := b.total_batches_stored + 1
           pending_entries := [] }) := by
  rw [AuditBatcher.flush]
  split
  · exact Or.inl rfl
  · split
    · exact Or.inl rfl
    · exact Or.inr ⟨_, rfl⟩

theorem runOps_batches_len (entrySha : String → Nat → Details → Hash)
    (H : Hash → Hash → Hash) :
    ∀ (ops : List BatcherOp) (b : AuditBatcher),
      b.total_batches_stored = b.flushed_batches.length →
      (runOps entrySha H b ops).total_batches_stored
        = (runOps entrySha H b ops).flushed_batches.length
  | [], b, hb => hb
  | BatcherOp.log a d t :: rest, b, hb => by
      rw [runOps]
      exact runOps_batches_len entrySha H rest _ (by simpa [AuditBatcher.log] using hb)
  | BatcherOp.flush force now env :: rest, b, hb => by
      rw [runOps]
      rcases flush_state_cases H b force now env with hcase | ⟨batch, hcase⟩ <;>
        rw [hcase] <;>
        exact runOps_batches_len entrySha H rest _ (by simp [hb])

/-- **C7** — batch invariants: in every run of `log`/`flush` operations from
a fresh batcher, a flush that returns a batch returns one whose
`entries_count` is the number of embedded entries, whose `merkle_root` is
`compute_merkle_root` of the entries' hashes in insertion order, and whose
`batch_index` is the number of previously flushed batches. -/
theorem flush_batch_invariants (entrySha : String → Nat → Details → Hash)
    (H : Hash → Hash → Hash) (ops : List BatcherOp) (bs : Nat) (force : Bool)
    (now : Nat) (env : Option (Nat → Except String String)) (batch : BatchData)
    (b' : AuditBatcher)
    (hrun : (runOps entrySha H (AuditBatcher.init bs) ops).flush H force now env
              = (some batch, b')) :
    batch.entries_count = batch.entries.length ∧
    batch.merkle_root = compute_merkle_root H (batch.entries.map (fun e => e.entry_hash)) ∧
    batch.batch_index
      = (runOps entrySha H (AuditBatcher.init bs) ops).flushed_batches.length := by
  have hinv := runOps_batches_len entrySha H ops (AuditBatcher.init bs) rfl
  set s := runOps entrySha H (AuditBatcher.init bs) ops with hs
  rw [AuditBatcher.flush] at hrun
  split at hrun
  · exact absurd (congrArg Prod.fst hrun) (by simp)
  · split at hrun
    · exact absurd (congrArg Prod.fst hrun) (by simp)
    · have hbatch := congrArg Prod.fst hrun
      simp only [Option.some.injEq] at hbatch
      rcases env with _ | outcomes
      · rw [← hbatch]
        exact ⟨rfl, rfl, hinv⟩
      · rcases hc : commitAttempts outcomes with sig | err | _ <;>
          simp only [hc] at hbatch <;> rw [← hbatch] <;>
          exact ⟨rfl, rfl, hinv⟩

/-- **C7 witness**: a one-entry forced flush from a fresh batcher. -/
theorem flush_batch_invariants_witness :
    (runOps shaW combW (AuditBatcher.init 10)
        [BatcherOp.log "evaluation_completed" "d1" 5]).flush combW true 7 none
      = (some ⟨0, [5], 1, 7, [⟨"evaluation_completed", 5, "d1", [5]⟩], none, false, none⟩,
         ⟨10, [], [⟨0, [5], 1, 7, [⟨"evaluation_completed", 5, "d1", [5]⟩], none, false, none⟩],
          1, 1⟩) ∧
    (⟨0, [5], 1, 7, [⟨"evaluation_completed", 5, "d1", [5]⟩], none, false, none⟩ :
        BatchData).entries_count
        = (⟨0, [5], 1, 7, [⟨"evaluation_completed", 5, "d1", [5]⟩], none, false,
            none⟩ : BatchData).entries.length ∧
    ([5] : Hash) = compute_merkle_root combW
        ((([⟨"evaluation_completed", 5, "d1", [5]⟩] : List AuditEntry)).map
          (fun e => e.entry_hash)) ∧
    0 = (runOps shaW combW (AuditBatcher.init 10)
          [BatcherOp.log "evaluation_completed" "d1" 5]).flushed_batches.length := by
  refine ⟨rfl, ?_⟩
  have h := flush_batch_invariants shaW combW
    [BatcherOp.log "evaluation_completed" "d1" 5] 10 true 7 none
    ⟨0, [5], 1, 7, [⟨"evaluation_completed", 5, "d1", [5]⟩], none, false, none⟩
    ⟨10, [], [⟨0, [5], 1, 7, [⟨"evaluation_completed", 5, "d1", [5]⟩], none, false, none⟩], 1, 1⟩
    rfl
  exact h

theorem logMany_shape (entrySha : String → Nat → Details → Hash) :
    ∀ (items : List (String × Details × Nat)) (b : AuditBatcher),
      (logMany entrySha b items).pending_entries.length
          = b.pending_entries.length + items.length ∧
      (logMany entrySha b items).batch_size = b.batch_size
  | [], b => by simp [logMany]
  | it :: rest, b => by
      have ih := logMany_shape entrySha rest ((b.log entrySha it.1 it.2.1 it.2.2).2)
      simp only [logMany, List.foldl_cons] at ih ⊢
      refine ⟨?_, ?_⟩
      · rw [ih.1]
        simp [AuditBatcher.log]
        omega
      · rw [ih.2]
        simp [AuditBatcher.log]

/-- **C8** — flush/threshold semantics: `flush` returns null exactly when the
pending sequence is empty or (not forced) below `batch_size`, leaving the
batcher unchanged in those cases; `should_flush` holds exactly when the
pending count reaches `batch_size`; hence `batch_size - 1` logged entries
yield a null unforced flush and one more makes `should_flush` true. -/
theorem flush_null_iff_and_threshold :
    (∀ (H : Hash → Hash → Hash) (b : AuditBatcher) (force : Bool) (now : Nat)
        (env : Option (Nat → Except String String)),
      ((b.flush H force now env).1 = none ↔
        (b.pending_entries = [] ∨
          (force = false ∧ b.pending_entries.length < b.batch_size)))) ∧
    (∀ (H : Hash → Hash → Hash) (b : AuditBatcher) (force : Bool) (now : Nat)
        (env : Option (Nat → Except String String)),
      (b.flush H force now env).1 = none → (b.flush H force now env).2 = b) ∧
    (∀ b : AuditBatcher,
      b.should_flush = true ↔ b.batch_size ≤ b.pending_entries.length) ∧
    (∀ (entrySha : String → Nat → Details → Hash) (H : Hash → Hash → Hash)
        (bs : Nat) (items : List (String × Details × Nat)) (now : Nat)
        (env : Option (Nat → Except String String)),
      items.length + 1 = bs →
      ((logMany entrySha (AuditBatcher.init bs) items).flush H false now env).1 = none) ∧
    (∀ (entrySha : String → Nat → Details → Hash) (bs : Nat)
        (items : List (String × Details × Nat)),
      items.length = bs →
      (logMany entrySha (AuditBatcher.init bs) items).should_flush = true) := by
  have hnone : ∀ (H : Hash → Hash → Hash) (b : AuditBatcher) (force : Bool) (now : Nat)
      (env : Option (Nat → Except String String)),
      ((b.flush H force now env).1 = none ↔
        (b.pending_entries = [] ∨
          (force = false ∧ b.pending_entries.length < b.batch_size))) := by
    intro H b force now env
    rw [AuditBatcher.flush]
    split
    · simpa using Or.inl (by assumption)
    · split
      · simpa using Or.inr (by assumption)
      · simp only []
        constructor
        · intro h; exact absurd h (by simp)
        · intro h
          rcases h with h | h
          · exact absurd h (by assumption)
          · exact absurd h (by assumption)
  refine ⟨hnone, ?_, ?_, ?_, ?_⟩
  · intro H b force now env hn
    rcases flush_state_cases H b force now env with hc | ⟨batch, hc⟩
    · rw [hc]
    · rw [hc] at hn
      exact absurd hn (by simp)
  · intro b
    simp [AuditBatcher.should_flush]
  · intro entrySha H bs items now env hlen
    rw [hnone]
    right
    refine ⟨rfl, ?_⟩
    rw [(logMany_shape entrySha items (AuditBatcher.init bs)).1,
      (logMany_shape entrySha items (AuditBatcher.init bs)).2]
    simp [AuditBatcher.init]
    omega
  · intro entrySha bs items hlen
    rw [AuditBatcher.should_flush, decide_eq_true_iff,
      (logMany_shape entrySha items (AuditBatcher.init bs)).1,
      (logMany_shape entrySha items (AuditBatcher.init bs)).2]
    simp [AuditBatcher.init]
    omega

/-- **C8 witness**: the `batch_size = 3` threshold scenario on concrete data:
two logged entries flush to null unforced, a third makes `should_flush` true. -/
theorem flush_null_iff_and_threshold_witness :
    ([("a", ("d", 1)), ("b", ("d", 2))] : List (String × Details × Nat)).length + 1 = 3 ∧
    ((logMany shaW (AuditBatcher.init 3) [("a", ("d", 1)), ("b", ("d", 2))]).flush
        combW false 9 none).1 = none ∧
    ([("a", ("d", 1)), ("b", ("d", 2)), ("c", ("d", 3))] :
        List (String × Details × Nat)).length = 3 ∧
    (logMany shaW (AuditBatcher.init 3)
        [("a", ("d", 1)), ("b", ("d", 2)), ("c", ("d", 3))]).should_flush = true :=
  ⟨rfl,
   flush_null_iff_and_threshold.2.2.2.1 shaW combW 3 [("a", ("d", 1)), ("b", ("d", 2))]
     9 none rfl,
   rfl,
   flush_null_iff_and_threshold.2.2.2.2 shaW 3
     [("a", ("d", 1)), ("b", ("d", 2)), ("c", ("d", 3))] rfl⟩

/-- **C6** — at the failing input of the claim: when all three commit
attempts fail and the *final* failure carries the index-collision
(seeds-constraint) signature, the flush loop falls out without re-raising, so
the flushed batch's `store_error` is NOT set (it stays absent), while
`tx_signature` is null and the batch does remain in the flushed list.  This
contradicts the documented behaviour "if all retries exhaust, record
`commit_error`"; the error is only recorded when the final failure is not an
index collision. -/
theorem flush_exhausted_seeds_error_not_recorded (H : Hash → Hash → Hash)
    (b : AuditBatcher) (now : Nat) (e0 e1 e2 : String)
    (hpend : b.pending_entries ≠ [])
    (hseeds : isSeedsConstraintError e2 = true) :
    ∃ batch,
      (b.flush H true now (some (fun k =>
          if k = 0 then Except.error e0
          else if k = 1 then Except.error e1
          else Except.error e2))).1 = some batch ∧
      batch.store_error = none ∧
      batch.tx_signature = none ∧
      (b.flush H true now (some (fun k =>
          if k = 0 then Except.error e0
          else if k = 1 then Except.error e1
          else Except.error e2))).2.flushed_batches
        = b.flushed_batches ++ [batch] := by
  rw [AuditBatcher.flush, if_neg hpend, if_neg (by simp)]
  have hca : commitAttempts (fun k =>
      if k = 0 then Except.error e0
      else if k = 1 then Except.error e1
      else Except.error e2) = CommitResult.swallowed := by
    rw [commitAttempts]
    simp [hseeds]
  simp only [hca]
  exact ⟨_, rfl, rfl, rfl, rfl⟩

/-- **C6 witness**: a concrete one-entry batch whose three commit attempts
all fail with a seeds-constraint message. -/
theorem flush_exhausted_seeds_error_not_recorded_witness :
    (((AuditBatcher.init 10).log shaW "challenge_passed" "d" 4).2.pending_entries ≠ [] ∧
      isSeedsConstraintError "AnchorError: 2006 seeds constraint was violated" = true) ∧
    (∃ batch,
      ((((AuditBatcher.init 10).log shaW "challenge_passed" "d" 4).2).flush combW true 9
          (some (fun k =>
            if k = 0 then Except.error "timeout"
            else if k = 1 then Except.error "timeout"
            else Except.error "AnchorError: 2006 seeds constraint was violated"))).1
        = some batch ∧
      batch.store_error = none ∧
      batch.tx_signature = none ∧
      ((((AuditBatcher.init 10).log shaW "challenge_passed" "d" 4).2).flush combW true 9
          (some (fun k =>
            if k = 0 then Except.error "timeout"
            else if k = 1 then Except.error "timeout"
            else Except.error "AnchorError: 2006 seeds constraint was violated"))).2.flushed_batches
        = (((AuditBatcher.init 10).log shaW "challenge_passed" "d" 4).2).flushed_batches
            ++ [batch]) :=
  ⟨⟨by decide, by decide⟩,
   flush_exhausted_seeds_error_not_recorded combW
     (((AuditBatcher.init 10).log shaW "challenge_passed" "d" 4).2) 9
     "timeout" "timeout" "AnchorError: 2006 seeds constraint was violated"
     (by decide) (by decide)⟩

/-- **C2** — at the failing input of the claim: an agent whose batcher has
flushed one single-entry batch, saved and reloaded.  `load_state` restores
`total_batches_stored` from the saved batch list, but recomputes
`total_entries_logged` as `sum(b.get("entry_count", 0))` — and the batch
dicts built by `flush` carry the key `"entries_count"`, never
`"entry_count"`, so the restored entry counter is always 0: the total-entries
counter resets on every restart even though prior batch data exists.  The
last conjunct isolates the key miss itself. -/
theorem load_state_resets_entries_counter
    (entrySha : String → Nat → Details → Hash) (H : Hash → Hash → Hash) (d : Details) :
    ((((AuditBatcher.init 10).log entrySha "evaluation_completed" d 5).2).flush
        H true 7 none).2.total_entries_logged = 1 ∧
    (load_state_batcher
        (savedAuditBatches
          ((((AuditBatcher.init 10).log entrySha "evaluation_completed" d 5).2).flush
              H true 7 none).2)
        (AuditBatcher.init 10)).total_batches_stored = 1 ∧
    (load_state_batcher
        (savedAuditBatches
          ((((AuditBatcher.init 10).log entrySha "evaluation_completed" d 5).2).flush
              H true 7 none).2)
        (AuditBatcher.init 10)).total_entries_logged = 0 ∧
    (∀ bd : BatchData, batchGetNat bd "entry_count" = none) := by
  refine ⟨rfl, rfl, rfl, fun bd => rfl⟩


theorem foldl_min_spec :
    ∀ (xs : List (String × ℚ)) (x : String × ℚ),
      (xs.foldl (fun best p => if p.2 < best.2 then p else best) x) ∈ x :: xs ∧
      ∀ p ∈ x :: xs,
        (xs.foldl (fun best p => if p.2 < best.2 then p else best) x).2 ≤ p.2
  | [], x => by simp
  | y :: ys, x => by
      have ih := foldl_min_spec ys (if y.2 < x.2 then y else x)
      have hz : (if y.2 < x.2 then y else x) = y ∨ (if y.2 < x.2 then y else x) = x := by
        split
        · exact Or.inl rfl
        · exact Or.inr rfl
      have hzx : (if y.2 < x.2 then y else x).2 ≤ x.2 := by
        split
        · linarith [(by assumption : y.2 < x.2)]
        · exact le_refl _
      have hzy : (if y.2 < x.2 then y else x).2 ≤ y.2 := by
        split
        · exact le_refl _
        · linarith [le_of_not_lt (by assumption : ¬ y.2 < x.2)]
      simp only [List.foldl_cons]
      constructor
      · rw [List.mem_cons] at ih ⊢
        rw [List.mem_cons]
        rcases ih.1 with h | h
        · rcases hz with hz | hz
          · exact Or.inr (Or.inl (h.trans hz))
          · exact Or.inl (h.trans hz)
        · exact Or.inr (Or.inr h)
      · intro p hp
        have hbase := ih.2 _ (List.mem_cons_self _ _)
        rw [List.mem_cons, List.mem_cons] at hp
        rcases hp with hp | hp | hp
        · rw [hp]; exact le_trans hbase hzx
        · rw [hp]; exact le_trans hbase hzy
        · exact ih.2 p (List.mem_cons_of_mem _ hp)

theorem avgScores_eq_nil_iff (source : List (String × List ℚ)) :
    avgScores source = [] ↔ ∀ p ∈ source, p.2 = [] := by
  rw [avgScores, List.filterMap_eq_nil_iff]
  constructor
  · intro h p hp
    have := h p hp
    by_contra hne
    simp [hne] at this
  · intro h p hp
    simp [h p hp]

theorem minByValue_mem (l : List (String × ℚ)) (d : String) (hd : minByValue l = some d) :
    ∃ v, (d, v) ∈ l ∧ ∀ p ∈ l, v ≤ p.2 := by
  match l with
  | [] => exact absurd hd (by simp [minByValue])
  | x :: xs =>
      rw [minByValue, Option.some.injEq] at hd
      have hspec := foldl_min_spec xs x
      refine ⟨(xs.foldl (fun best p => if p.2 < best.2 then p else best) x).2, ?_, hspec.2⟩
      rw [← hd]
      exact hspec.1

/-- **C9 (amended)** — `_get_weakest_domain`: the documented scenario returns
`"defi"`; whenever a domain is returned, it appears in the averaged-score
list of the chosen source map with the least last-five average; and the
result is `None` exactly when every score list of the chosen source map is
empty — the chosen source being the self-score dict whenever that dict is
non-empty (the peer fallback applies only to an empty self dict, and `None`
is returned even if peer data exists once the self dict has a domain with no
scores). -/
theorem get_weakest_domain_characterised :
    (∀ peerScores : List (String × List ℚ),
        get_weakest_domain
          [("defi", [40, 45]), ("solana", [90, 92]), ("security", [70])] peerScores
          = some "defi") ∧
    (∀ (selfScores peerScores : List (String × List ℚ)) (d : String),
        get_weakest_domain selfScores peerScores = some d →
        ∃ v, (d, v) ∈ avgScores (if selfScores = [] then peerScores else selfScores) ∧
          ∀ p ∈ avgScores (if selfScores = [] then peerScores else selfScores),
            v ≤ p.2) ∧
    (∀ selfScores peerScores : List (String × List ℚ),
        get_weakest_domain selfScores peerScores = none ↔
          ∀ p ∈ (if selfScores = [] then peerScores else selfScores), p.2 = []) := by
  refine ⟨?_, ?_, ?_⟩
  · intro peerScores
    have h0 : (if ([("defi", [40, 45]), ("solana", [90, 92]), ("security", [70])] :
          List (String × List ℚ)) = [] then peerScores
        else [("defi", [40, 45]), ("solana", [90, 92]), ("security", [70])])
        = [("defi", [40, 45]), ("solana", [90, 92]), ("security", [70])] := if_neg (by simp)
    have havg : avgScores [("defi", [40, 45]), ("solana", [90, 92]), ("security", [70])]
        = [("defi", 85/2), ("solana", 91), ("security", 70)] := by
      simp [avgScores, avgLast5, List.filterMap_cons]
      norm_num
    simp only [get_weakest_domain, h0, havg]
    rw [if_neg (by simp), if_neg (by simp), minByValue]
    norm_num
  · intro selfScores peerScores d hd
    rw [get_weakest_domain] at hd
    set source := if selfScores = [] then peerScores else selfScores with hsource
    by_cases h1 : source = []
    · rw [if_pos h1] at hd
      exact absurd hd (by simp)
    · rw [if_neg h1] at hd
      simp only [] at hd
      by_cases h2 : avgScores source = []
      · rw [if_pos h2] at hd
        exact absurd hd (by simp)
      · rw [if_neg h2] at hd
        exact minByValue_mem _ _ hd
  · intro selfScores peerScores
    rw [get_weakest_domain]
    set source := if selfScores = [] then peerScores else selfScores with hsource
    by_cases h1 : source = []
    · rw [if_pos h1, h1]
      simp
    · rw [if_neg h1]
      simp only []
      by_cases h2 : avgScores source = []
      · rw [if_pos h2]
        rw [avgScores_eq_nil_iff] at h2
        simp only [eq_self_iff_true, true_iff]
        exact h2
      · rw [if_neg h2]
        rw [avgScores_eq_nil_iff] at h2
        constructor
        · intro h
          rcases hl : avgScores source with _ | ⟨x, xs⟩
          · exact absurd (avgScores_eq_nil_iff source |>.mp hl) h2
          · rw [hl] at h
            simp [minByValue] at h
        · intro h
          exact absurd h h2


/-- **C9 counterexample** — the claim as stated fails at
`self_domain_scores = {"defi": []}`, `domain_scores = {"defi": [50]}`: no
self-score exists at all and peer score data exists, yet the code returns
`None`, while the claim's reading (`specWeakestDomain`, falling back to peer
scores when no self-score exists at all) returns `"defi"`. -/
theorem get_weakest_domain_counterexample :
    get_weakest_domain [("defi", [])] [("defi", [50])] = none ∧
    specWeakestDomain [("defi", [])] [("defi", [50])] = some "defi" ∧
    ([("defi", [50])] : List (String × List ℚ)) ≠ [] := by
  refine ⟨rfl, rfl, by simp⟩

/-- **C9 witness**: the min-characterisation applied at a concrete two-domain
self map. -/
theorem get_weakest_domain_characterised_witness :
    get_weakest_domain [("a", [3]), ("b", [1])] [] = some "b" ∧
    (∃ v, ("b", v) ∈ avgScores
        (if ([("a", [3]), ("b", [1])] : List (String × List ℚ)) = []
          then ([] : List (String × List ℚ)) else [("a", [3]), ("b", [1])]) ∧
      ∀ p ∈ avgScores
          (if ([("a", [3]), ("b", [1])] : List (String × List ℚ)) = []
            then ([] : List (String × List ℚ)) else [("a", [3]), ("b", [1])]),
        v ≤ p.2) := by
  have hsel : get_weakest_domain [("a", [3]), ("b", [1])] [] = some "b" := by
    have havg : avgScores [("a", [3]), ("b", [1])] = [("a", 3), ("b", 1)] := by
      simp [avgScores, avgLast5, List.filterMap_cons]
    have h0 : (if ([("a", [3]), ("b", [1])] : List (String × List ℚ)) = []
          then ([] : List (String × List ℚ)) else [("a", [3]), ("b", [1])])
        = [("a", [3]), ("b", [1])] := if_neg (by simp)
    simp only [get_weakest_domain, h0, havg]
    rw [if_neg (by simp), if_neg (by simp), minByValue]
    norm_num
  exact ⟨hsel, get_weakest_domain_characterised.2.1 [("a", [3]), ("b", [1])] [] "b" hsel⟩

/-- **C3** — at the failing input of the claim: the weight `select_question`
assigns to a candidate question is a function of the selector personality and
the question's domain alone (the `PERSONALITY_WEIGHTS` row, default 0.1).
`select_question` takes no preferred-domain input at all, so no supplied
weakest-domain signal can increase any domain's selection likelihood — while
its caller (`multi_main.py:497-500`) passes `preferred_domain=weakest`, a
keyword the method does not accept. -/
theorem select_question_weights_ignore_preferred_domain
    (qid : String → String) (personality : String) (pool : List ChallengeQuestion)
    (asked : List String) (q : ChallengeQuestion) (w : ℚ)
    (hmem : (q, w) ∈ selectWeights qid personality pool asked) :
    w = (List.lookup q.domain (personalityWeightsFor personality)).getD 0.1 := by
  rw [selectWeights] at hmem
  rcases List.mem_map.mp hmem with ⟨q', _, heq⟩
  rcases Prod.mk.injEq .. ▸ heq with ⟨hq, hw⟩
  rw [← hw, hq]

/-- **C3 witness**: a solana-domain question under a defi personality gets
weight 0.15 independently of any weakest-domain signal. -/
theorem select_question_weights_witness :
    ((⟨"q1", "solana", "easy"⟩ : ChallengeQuestion), (0.15 : ℚ)) ∈
        selectWeights (fun t => t) "defi" [⟨"q1", "solana", "easy"⟩] [] ∧
    (0.15 : ℚ) =
      (List.lookup ((⟨"q1", "solana", "easy"⟩ : ChallengeQuestion).domain)
          (personalityWeightsFor "defi")).getD 0.1 := by
  have hmem : ((⟨"q1", "solana", "easy"⟩ : ChallengeQuestion), (0.15 : ℚ)) ∈
      selectWeights (fun t => t) "defi" [⟨"q1", "solana", "easy"⟩] [] := by
    simp [selectWeights, selectCandidates, personalityWeightsFor, PERSONALITY_WEIGHTS,
      List.lookup]
  exact ⟨hmem,
    select_question_weights_ignore_preferred_domain (fun t => t) "defi"
      [⟨"q1", "solana", "easy"⟩] [] ⟨"q1", "solana", "easy"⟩ (0.15 : ℚ) hmem⟩

theorem lookup_assocSet_self :
    ∀ (l : List (String × ℚ)) (k : String) (v : ℚ),
      List.lookup k (assocSet l k v) = some v
  | [], k, v => by simp [assocSet, List.lookup]
  | (k', v') :: rest, k, v => by
      rw [assocSet]
      split
      · simp [List.lookup]
      · rename_i hne
        have h2 : (k == k') = false := beq_eq_false_iff_ne.mpr (fun h => hne h.symm)
        rw [List.lookup, h2]
        exact lookup_assocSet_self rest k v

theorem lookup_assocSet_ne :
    ∀ (l : List (String × ℚ)) (k : String) (v : ℚ) (k' : String), k' ≠ k →
      List.lookup k' (assocSet l k v) = List.lookup k' l
  | [], k, v, k', hk => by
      have h2 : (k' == k) = false := beq_eq_false_iff_ne.mpr hk
      simp [assocSet, List.lookup, h2]
  | (a, b) :: rest, k, v, k', hk => by
      rw [assocSet]
      split
      · rename_i hak
        have h2 : (k' == k) = false := beq_eq_false_iff_ne.mpr hk
        have h3 : (k' == a) = false := by
          rw [hak]
          exact h2
        rw [List.lookup, List.lookup, h2, h3]
      · rw [List.lookup, List.lookup]
        cases k' == a
        · exact lookup_assocSet_ne rest k v k' hk
        · rfl

theorem cooldownGet_resetBudget (s : TriggerState) (now : ℚ) (cat : String) :
    cooldownGet (resetBudget s now) cat = cooldownGet s cat := by
  rw [resetBudget]
  split <;> rfl

theorem cooldownGet_fire_self (s : TriggerState) (now : ℚ) (cat : String) :
    cooldownGet (fireCategory s now cat) cat = now := by
  rw [fireCategory, cooldownGet]
  simp [lookup_assocSet_self]

theorem cooldownGet_fire_ne (s : TriggerState) (now : ℚ) (cat cat' : String)
    (h : cat' ≠ cat) :
    cooldownGet (fireCategory s now cat) cat' = cooldownGet s cat' := by
  rw [fireCategory, cooldownGet, cooldownGet]
  simp [lookup_assocSet_ne _ _ _ _ h]

theorem pickLowSelfScore_offCooldown :
    ∀ (scores : List (String × List ℚ)) (s : TriggerState) (now : ℚ) (cat : String),
      pickLowSelfScore s now scores = some cat → offCooldown s now cat
  | [], s, now, cat, h => by simp [pickLowSelfScore] at h
  | (d, sc) :: rest, s, now, cat, h => by
      rw [pickLowSelfScore] at h
      split at h
      · rename_i hc
        rw [Option.some.injEq] at h
        rw [← h]
        exact hc.2.2
      · exact pickLowSelfScore_offCooldown rest s now cat h

theorem pickScoreVariance_offCooldown :
    ∀ (scores : List (String × List ℚ)) (s : TriggerState) (now : ℚ) (cat : String),
      pickScoreVariance s now scores = some cat → offCooldown s now cat
  | [], s, now, cat, h => by simp [pickScoreVariance] at h
  | (d, sc) :: rest, s, now, cat, h => by
      rw [pickScoreVariance] at h
      split at h
      · rename_i hc
        split at h
        · rw [Option.some.injEq] at h
          rw [← h]
          exact hc.2
        · exact pickScoreVariance_offCooldown rest s now cat h
      · exact pickScoreVariance_offCooldown rest s now cat h

theorem pickTrigger_offCooldown (s : TriggerState) (inp : TriggerInputs) (cat : String)
    (h : pickTrigger s inp = some cat) : offCooldown s inp.now cat := by
  rw [pickTrigger] at h
  split at h
  · rename_i hc
    rw [Option.some.injEq] at h
    rw [← h]
    exact hc.2
  · split at h
    · rename_i hc
      rw [Option.some.injEq] at h
      rw [← h]
      exact hc.1
    · rcases hpick : pickLowSelfScore s inp.now inp.selfDomainScores with _ | c
      · rw [hpick] at h
        exact pickScoreVariance_offCooldown _ s inp.now cat h
      · rw [hpick] at h
        rw [Option.some.injEq] at h
        rw [← h]
        exact pickLowSelfScore_offCooldown _ s inp.now c hpick

theorem fire_spec (s0 : TriggerState) (inp : TriggerInputs) (cat : String)
    (h : (shouldChallengeUrgently s0 inp).1 = some cat) :
    offCooldown (resetBudget s0 inp.now) inp.now cat ∧
    (shouldChallengeUrgently s0 inp).2 = fireCategory (resetBudget s0 inp.now) inp.now cat ∧
    (resetBudget s0 inp.now).hourlyCount < MAX_URGENT_PER_HOUR := by
  simp only [shouldChallengeUrgently] at h ⊢
  split at h
  · exact absurd h (by simp)
  · rename_i hlt
    rw [if_neg hlt]
    rcases hpick : pickTrigger (resetBudget s0 inp.now) inp with _ | c
    · rw [hpick] at h
      simp at h
    · rw [hpick] at h
      simp only [Option.some.injEq] at h
      subst h
      exact ⟨pickTrigger_offCooldown _ _ _ hpick, rfl, by omega⟩

theorem nofire_spec (s0 : TriggerState) (inp : TriggerInputs)
    (h : (shouldChallengeUrgently s0 inp).1 = none) :
    (shouldChallengeUrgently s0 inp).2 = resetBudget s0 inp.now := by
  simp only [shouldChallengeUrgently] at h ⊢
  split at h
  · rename_i h1
    rw [if_pos h1]
  · rename_i hlt
    rw [if_neg hlt]
    rcases hpick : pickTrigger (resetBudget s0 inp.now) inp with _ | c
    · rfl
    · rw [hpick] at h
      simp at h

theorem fireTimes_cons (t : ℚ) (o : Option String) (evs : List (ℚ × Option String))
    (cat : String) :
    fireTimes ((t, o) :: evs) cat =
      if o = some cat then t :: fireTimes evs cat else fireTimes evs cat := by
  by_cases ho : o = some cat <;> simp [fireTimes, List.filterMap_cons, ho]

theorem countFires_cons (t : ℚ) (o : Option String) (evs : List (ℚ × Option String)) :
    countFires ((t, o) :: evs) =
      (if o.isSome then 1 else 0) + countFires evs := by
  cases o <;> simp [countFires, List.filter]
  omega

theorem fireTimes_pairwise_aux (cat : String) :
    ∀ (inps : List TriggerInputs) (s : TriggerState),
      List.Pairwise (fun t1 t2 => t1 + URGENT_COOLDOWN_SECONDS ≤ t2)
        (fireTimes (runTriggers s inps).1 cat) ∧
      ∀ t ∈ fireTimes (runTriggers s inps).1 cat,
        cooldownGet s cat + URGENT_COOLDOWN_SECONDS ≤ t
  | [], s => by simp [runTriggers, fireTimes]
  | inp :: rest, s => by
      simp only [runTriggers]
      rw [fireTimes_cons]
      by_cases hf : (shouldChallengeUrgently s inp).1 = some cat
      · rw [if_pos hf]
        have hspec := fire_spec s inp cat hf
        have hoff : cooldownGet s cat + URGENT_COOLDOWN_SECONDS ≤ inp.now := by
          have h1 := hspec.1
          rw [offCooldown, cooldownGet_resetBudget] at h1
          linarith
        have hcd : cooldownGet (shouldChallengeUrgently s inp).2 cat = inp.now := by
          rw [hspec.2.1, cooldownGet_fire_self]
        have ih := fireTimes_pairwise_aux cat rest (shouldChallengeUrgently s inp).2
        refine ⟨List.Pairwise.cons ?_ ih.1, ?_⟩
        · intro t ht
          have := ih.2 t ht
          rw [hcd] at this
          exact this
        · intro t ht
          rcases List.mem_cons.mp ht with h | h
        
          · rw [h]
            exact hoff
          · have := ih.2 t h
            rw [hcd] at this
            have hpos : (0 : ℚ) < URGENT_COOLDOWN_SECONDS := by norm_num [URGENT_COOLDOWN_SECONDS]
            linarith
      · rw [if_neg hf]
        have hcd : cooldownGet (shouldChallengeUrgently s inp).2 cat = cooldownGet s cat := by
          rcases ho : (shouldChallengeUrgently s inp).1 with _ | c
          · rw [nofire_spec s inp ho, cooldownGet_resetBudget]
          · have hspec := fire_spec s inp c ho
            have hcc : cat ≠ c := by
              intro hcc
              rw [hcc] at hf
              exact hf ho
            rw [hspec.2.1, cooldownGet_fire_ne _ _ _ _ hcc, cooldownGet_resetBudget]
        have ih := fireTimes_pairwise_aux cat rest (shouldChallengeUrgently s inp).2
        refine ⟨ih.1, fun t ht => ?_⟩
        have := ih.2 t ht
        rw [hcd] at this
        exact this

theorem countFires_budget :
    ∀ (inps : List TriggerInputs) (s : TriggerState),
      s.hourlyCount ≤ MAX_URGENT_PER_HOUR →
      (∀ inp ∈ inps, inp.now - s.hourlyResetTs < 3600) →
      countFires (runTriggers s inps).1 + s.hourlyCount ≤ MAX_URGENT_PER_HOUR
  | [], s, h8, hwin => by
      simp [runTriggers, countFires]
      exact h8
  | inp :: rest, s, h8, hwin => by
      have hnr : resetBudget s inp.now = s := by
        rw [resetBudget, if_neg (not_le.mpr (hwin inp (List.mem_cons_self _ _)))]
      simp only [runTriggers]
      rw [countFires_cons]
      rcases ho : (shouldChallengeUrgently s inp).1 with _ | c
      · have hs' : (shouldChallengeUrgently s inp).2 = s := by
          rw [nofire_spec s inp ho, hnr]
        rw [hs']
        have ih := countFires_budget rest s h8
          (fun i hi => hwin i (List.mem_cons_of_mem _ hi))
        simpa using ih
      · have hspec := fire_spec s inp c ho
        have hs' : (shouldChallengeUrgently s inp).2 = fireCategory s inp.now c := by
          rw [hspec.2.1, hnr]
        have hlt : s.hourlyCount < MAX_URGENT_PER_HOUR := by
          have := hspec.2.2
          rw [hnr] at this
          exact this
        rw [hs']
        have ih := countFires_budget rest (fireCategory s inp.now c)
          (by
            show s.hourlyCount + 1 ≤ MAX_URGENT_PER_HOUR
            omega)
          (fun i hi => hwin i (List.mem_cons_of_mem _ hi))
        have hcn : (fireCategory s inp.now c).hourlyCount = s.hourlyCount + 1 := rfl
        rw [hcn] at ih
        simp only [Option.isSome_some, if_pos]
        omega

theorem budget_exhausted_step (s : TriggerState) (inp : TriggerInputs)
    (h8 : MAX_URGENT_PER_HOUR ≤ s.hourlyCount)
    (hwin : inp.now - s.hourlyResetTs < 3600) :
    shouldChallengeUrgently s inp = (none, s) := by
  have hnr : resetBudget s inp.now = s := by
    rw [resetBudget, if_neg (not_le.mpr hwin)]
  simp only [shouldChallengeUrgently, hnr, if_pos h8]

/-- **C4** — rate limiting of `_should_challenge_urgently`: (i) per category,
any two firings in any evaluation sequence are at least
`URGENT_COOLDOWN_SECONDS` (600 s) apart, tracked independently per category;
(ii) from a fresh budget counter, at most `MAX_URGENT_PER_HOUR` (8) triggers
fire over any sequence of evaluations lying inside one hourly budget window;
(iii) once the hourly count has reached 8, an evaluation inside the current
window fires nothing and leaves the state unchanged, regardless of cooldown
state. -/
theorem urgent_trigger_rate_limits :
    (∀ (s : TriggerState) (inps : List TriggerInputs) (cat : String),
        List.Pairwise (fun t1 t2 => t1 + URGENT_COOLDOWN_SECONDS ≤ t2)
          (fireTimes (runTriggers s inps).1 cat)) ∧
    (∀ (s : TriggerState) (inps : List TriggerInputs),
        s.hourlyCount = 0 →
        (∀ inp ∈ inps, inp.now - s.hourlyResetTs < 3600) →
        countFires (runTriggers s inps).1 ≤ MAX_URGENT_PER_HOUR) ∧
    (∀ (s : TriggerState) (inp : TriggerInputs),
        MAX_URGENT_PER_HOUR ≤ s.hourlyCount →
        inp.now - s.hourlyResetTs < 3600 →
        shouldChallengeUrgently s inp = (none, s)) := by
  refine ⟨?_, ?_, budget_exhausted_step⟩
  · intro s inps cat
    exact (fireTimes_pairwise_aux cat inps s).1
  · intro s inps h0 hwin
    have := countFires_budget inps s (by rw [h0]; exact Nat.zero_le _) hwin
    omega

/-- **C4 witness**: the rate-limit statements applied to concrete states —
one evaluation with a new online peer from the fresh state, and a
budget-exhausted state (count 8) evaluated inside its window. -/
theorem urgent_trigger_rate_limits_witness :
    List.Pairwise (fun t1 t2 => t1 + URGENT_COOLDOWN_SECONDS ≤ t2)
      (fireTimes (runTriggers TriggerState.init
        [⟨100, 5000, 5000, [("p1", "online")], [], []⟩]).1 "new_peer") ∧
    countFires (runTriggers TriggerState.init
        [⟨100, 5000, 5000, [("p1", "online")], [], []⟩]).1 ≤ MAX_URGENT_PER_HOUR ∧
    shouldChallengeUrgently ⟨[], 8, 0⟩ ⟨100, 5000, 5000, [("p1", "online")], [], []⟩
      = (none, ⟨[], 8, 0⟩) := by
  refine ⟨urgent_trigger_rate_limits.1 TriggerState.init _ "new_peer", ?_, ?_⟩
  · exact urgent_trigger_rate_limits.2.1 TriggerState.init _ rfl
      (fun i hi => by rw [List.mem_singleton.mp hi]; norm_num [TriggerState.init])
  · exact urgent_trigger_rate_limits.2.2 ⟨[], 8, 0⟩ _
      (by norm_num [MAX_URGENT_PER_HOUR]) (by norm_num)
